import Mathlib

/-!
# Verification of the gufe storage layer

Shallow embedding of `gufe/storage/externalresource.py` and
`gufe/storage/resultclient.py` (repository LilDojd/gufe), together with
theorems settling the claims about the specification.

Conventions:
* Python `bytes` are modelled as `List Nat`.
* The external hash function `hashlib.md5(...).hexdigest()` is modelled as a
  parameter `md5hex : List Nat → String`: the claims depend only on the digest
  being a deterministic function of the bytes, not on MD5 internals.
* Python exceptions are modelled by `Except PyError`; `warnings.warn`
  is modelled by returning the list of emitted warning messages.
* A Python `dict` (`MemoryStorage._data`, the simulated filesystem) is an
  association list in which insertion prepends and `List.lookup` takes the
  most recent binding, matching dict overwrite semantics.
-/

namespace Gufe

/-- Errors that can surface from the storage layer.  `missingExternalResource`
and `changedExternalResource` are the two named error kinds of
`gufe/storage/errors.py` (not under `src/`; the error surface of the spec names
them ResourceMissing and ResourceChanged).  `keyError` models the Python
built-in `KeyError`, raised by a bare dict subscript. -/
inductive PyError where
  | missingExternalResource (msg : String)
  | changedExternalResource (msg : String)
  | keyError (key : String)
deriving DecidableEq, Repr

/-- Model of `ExternalStorage.allow_changed` class attribute: default `False`. -/
def allowChangedDefault : Bool := false

/-- Warning message built by `ExternalStorage.validate` on a digest
mismatch. -/
def mismatchWarning (location : String) : String :=
  "Hash mismatch for " ++ location ++ ": this object may have changed."

/-- Error message raised by `ExternalStorage.validate` on a digest mismatch
when `allow_changed` is off. -/
def mismatchErrorMsg (location : String) : String :=
  mismatchWarning location ++
    " To allow this, set ExternalStorage.allow_changed = True"

/-- Model of `ExternalStorage.validate(location, metadata)`, given the digest of the
data currently stored (`get_metadata` is backend specific and supplied by the
caller as `currentMd : Except PyError String`).  On success returns the list
of warnings emitted. -/
def validateWith (allowChanged : Bool) (location : String)
    (metadata : String) (currentMd : Except PyError String) :
    Except PyError (List String) :=
  match currentMd with
  | .error e => .error e
  | .ok md =>
    if ¬ (md = metadata) then
      if ¬ allowChanged then
        .error (.changedExternalResource (mismatchErrorMsg location))
      else
        .ok [mismatchWarning location]
    else
      .ok []

/-! ## MemoryStorage -/

/-- Model of `MemoryStorage`: `self._data`, a dict from location to bytes. -/
structure Mem where
  data : List (String × List Nat)
deriving DecidableEq, Repr

/-- Model of `MemoryStorage._exists` -/
def memExists (mem : Mem) (location : String) : Bool :=
  (List.lookup location mem.data).isSome

/-- Model of `MemoryStorage._load_stream`: a bare `self._data[location]` dict
subscript, so a missing key raises the Python `KeyError`. -/
def memLoadStreamRaw (mem : Mem) (location : String) :
    Except PyError (List Nat) :=
  match List.lookup location mem.data with
  | some byteData => .ok byteData
  | none => .error (.keyError location)

/-- Model of `ExternalStorage._get_hexdigest` / `get_metadata` for `MemoryStorage`. -/
def memGetMetadata (md5hex : List Nat → String) (mem : Mem)
    (location : String) : Except PyError String :=
  match memLoadStreamRaw mem location with
  | .ok byteData => .ok (md5hex byteData)
  | .error e => .error e

/-- Model of `ExternalStorage.validate` on a `MemoryStorage`. -/
def memValidate (md5hex : List Nat → String) (allowChanged : Bool)
    (mem : Mem) (location metadata : String) :
    Except PyError (List String) :=
  validateWith allowChanged location metadata (memGetMetadata md5hex mem location)

/-- Model of `ExternalStorage.load_stream` on a `MemoryStorage`: validate, then open
the stream.  Returns the bytes together with the warnings emitted. -/
def memLoadStream (md5hex : List Nat → String) (allowChanged : Bool)
    (mem : Mem) (location metadata : String) :
    Except PyError (List Nat × List String) :=
  match memValidate md5hex allowChanged mem location metadata with
  | .error e => .error e
  | .ok warns =>
    match memLoadStreamRaw mem location with
    | .error e => .error e
    | .ok byteData => .ok (byteData, warns)

/-- Model of `MemoryStorage._delete`: deleting a missing key catches the `KeyError`
and raises `MissingExternalResourceError`. -/
def memDelete (mem : Mem) (location : String) : Except PyError Mem :=
  if memExists mem location then
    .ok ⟨(mem.data.filter (fun kv => ¬ (kv.1 = location)))⟩
  else
    .error (.missingExternalResource
      ("Unable to delete " ++ location ++ ": key does not exist"))

/-- dict assignment `self._data[location] = byte_data`. -/
def memInsert (mem : Mem) (location : String) (byteData : List Nat) : Mem :=
  ⟨(location, byteData) :: mem.data⟩

/-- Model of `MemoryStorage._store`: write the bytes, then return the location and
`self.get_metadata(location)`. -/
def memStore (md5hex : List Nat → String) (mem : Mem) (location : String)
    (byteData : List Nat) : Except PyError ((String × String) × Mem) :=
  let mem' := memInsert mem location byteData
  match memGetMetadata md5hex mem' location with
  | .ok md => .ok ((location, md), mem')
  | .error e => .error e

/-! ## FileStorage -/

/-- The simulated filesystem: a mapping from path strings to file bytes. -/
structure FS where
  files : List (String × List Nat)
deriving DecidableEq, Repr

/-- POSIX absolute-path test (`pathlib.PurePath.is_absolute`): the path
starts with a slash. -/
def isAbs (s : String) : Bool := s.data.head? = some '/'

/-- Model of `FileStorage._as_path`: `self.root_dir / pathlib.Path(location)`.
the pathlib `/` operator discards the left operand when the right operand is an
absolute path.  (The model does not normalise redundant separators; no
claim depends on that.) -/
def asPath (rootDir location : String) : String :=
  if isAbs location then location else rootDir ++ "/" ++ location

/-- Model of `FileStorage._load_stream`: `open` of a missing path raises `OSError`,
which is caught and re-raised as `MissingExternalResourceError(str(e))`;
we model the message by the offending path. -/
def fileLoadStreamRaw (rootDir : String) (fs : FS) (location : String) :
    Except PyError (List Nat) :=
  match List.lookup (asPath rootDir location) fs.files with
  | some byteData => .ok byteData
  | none => .error (.missingExternalResource (asPath rootDir location))

/-- Model of `ExternalStorage._get_hexdigest` / `get_metadata` for `FileStorage`. -/
def fileGetMetadata (md5hex : List Nat → String) (rootDir : String) (fs : FS)
    (location : String) : Except PyError String :=
  match fileLoadStreamRaw rootDir fs location with
  | .ok byteData => .ok (md5hex byteData)
  | .error e => .error e

/-- Model of `ExternalStorage.validate` on a `FileStorage`. -/
def fileValidate (md5hex : List Nat → String) (allowChanged : Bool)
    (rootDir : String) (fs : FS) (location metadata : String) :
    Except PyError (List String) :=
  validateWith allowChanged location metadata
    (fileGetMetadata md5hex rootDir fs location)

/-- Model of `ExternalStorage.load_stream` on a `FileStorage`. -/
def fileLoadStream (md5hex : List Nat → String) (allowChanged : Bool)
    (rootDir : String) (fs : FS) (location metadata : String) :
    Except PyError (List Nat × List String) :=
  match fileValidate md5hex allowChanged rootDir fs location metadata with
  | .error e => .error e
  | .ok warns =>
    match fileLoadStreamRaw rootDir fs location with
    | .error e => .error e
    | .ok byteData => .ok (byteData, warns)

/-- Model of `ExternalStorage.get_filename` on a `FileStorage`: validate, then return
`str(self._as_path(location))`, plus the warnings emitted. -/
def fileGetFilename (md5hex : List Nat → String) (allowChanged : Bool)
    (rootDir : String) (fs : FS) (location metadata : String) :
    Except PyError (String × List String) :=
  match fileValidate md5hex allowChanged rootDir fs location metadata with
  | .error e => .error e
  | .ok warns => .ok (asPath rootDir location, warns)

/-- Model of `FileStorage._exists` -/
def fileExists (rootDir : String) (fs : FS) (location : String) : Bool :=
  (List.lookup (asPath rootDir location) fs.files).isSome

/-- Model of `FileStorage._delete` -/
def fileDelete (rootDir : String) (fs : FS) (location : String) :
    Except PyError FS :=
  if fileExists rootDir fs location then
    .ok ⟨fs.files.filter (fun kv => ¬ (kv.1 = asPath rootDir location))⟩
  else
    .error (.missingExternalResource
      ("Unable to delete " ++ asPath rootDir location ++
        ": File does not exist"))

/-- Writing a file: directories are created implicitly; the mapping is
updated at the full path. -/
def fsInsert (fs : FS) (path : String) (byteData : List Nat) : FS :=
  ⟨(path, byteData) :: fs.files⟩

/-- Model of `FileStorage._store`: write the bytes at `path = self._as_path(location)`
and return `str(path)` together with `self.get_metadata(str(path))`.  Note
that the metadata call joins `str(path)` under `root_dir` again. -/
def fileStore (md5hex : List Nat → String) (rootDir : String) (fs : FS)
    (location : String) (byteData : List Nat) :
    Except PyError ((String × String) × FS) :=
  let path := asPath rootDir location
  let fs' := fsInsert fs path byteData
  match fileGetMetadata md5hex rootDir fs' path with
  | .ok md => .ok ((path, md), fs')
  | .error e => .error e

/-! ## Round-trip predicates (claim C1) -/

/-- Model of `load_stream(*store(loc, P))` on a `MemoryStorage` succeeds and yields
exactly `P` (with no warnings). -/
def memRoundTrip (md5hex : List Nat → String) (mem : Mem) (loc : String)
    (P : List Nat) : Prop :=
  match memStore md5hex mem loc P with
  | .ok ((l, m), mem') =>
      memLoadStream md5hex allowChangedDefault mem' l m = .ok (P, [])
  | .error _ => False

/-- Model of `load_stream(*store(loc, P))` on a `FileStorage` succeeds and yields
exactly `P` (with no warnings). -/
def fileRoundTrip (md5hex : List Nat → String) (rootDir : String) (fs : FS)
    (loc : String) (P : List Nat) : Prop :=
  match fileStore md5hex rootDir fs loc P with
  | .ok ((l, m), fs') =>
      fileLoadStream md5hex allowChangedDefault rootDir fs' l m = .ok (P, [])
  | .error _ => False

/-- A concrete deterministic digest function, used to instantiate the
`md5hex` parameter in closed statements. -/
def testDigest : List Nat → String := fun bs => "d" ++ toString bs.length

/-- Expected behaviour of a `MemoryStorage` at a location whose current
content digest differs from the expected metadata (claim C2). -/
def memMismatchBehaviour (md5hex : List Nat → String) (mem : Mem)
    (loc metadata : String) (P : List Nat) : Prop :=
  memValidate md5hex allowChangedDefault mem loc metadata
      = .error (.changedExternalResource (mismatchErrorMsg loc)) ∧
  memLoadStream md5hex allowChangedDefault mem loc metadata
      = .error (.changedExternalResource (mismatchErrorMsg loc)) ∧
  memValidate md5hex true mem loc metadata = .ok [mismatchWarning loc] ∧
  memLoadStream md5hex true mem loc metadata = .ok (P, [mismatchWarning loc])

/-- Expected behaviour of a `FileStorage` at a location whose current
content digest differs from the expected metadata (claim C2). -/
def fileMismatchBehaviour (md5hex : List Nat → String) (rootDir : String)
    (fs : FS) (loc metadata : String) (Q : List Nat) : Prop :=
  fileValidate md5hex allowChangedDefault rootDir fs loc metadata
      = .error (.changedExternalResource (mismatchErrorMsg loc)) ∧
  fileLoadStream md5hex allowChangedDefault rootDir fs loc metadata
      = .error (.changedExternalResource (mismatchErrorMsg loc)) ∧
  fileGetFilename md5hex allowChangedDefault rootDir fs loc metadata
      = .error (.changedExternalResource (mismatchErrorMsg loc)) ∧
  fileValidate md5hex true rootDir fs loc metadata = .ok [mismatchWarning loc] ∧
  fileLoadStream md5hex true rootDir fs loc metadata
      = .ok (Q, [mismatchWarning loc]) ∧
  fileGetFilename md5hex true rootDir fs loc metadata
      = .ok (asPath rootDir loc, [mismatchWarning loc])

/-! ## Tokenizable objects and the result server (claims C3, C4)

`gufe/base.py` (`to_shallow_dict`, `modify_dependencies`,
`key_decode_dependencies`) and `gufe/storage/resultserver.py` are imported
by `resultclient.py` but are not under `src/`; the parts of the model that
depend on them are modelled from the spec and say so in their doc
comments. -/

/-- The identity key of a tokenizable object, of the form
`<ClassName>-<token>`; `_gufe_key_to_storage_key` unpacks it with
`cls, token = key.split("-")`, so a key is modelled as that pair. -/
structure GufeKey where
  cls : String
  token : String
deriving DecidableEq, Repr

/-- Modelled from the spec: a tokenizable object (spec §3) exposes a stable
identity key and a shallow representation whose nested tokenizable objects
(`deps`) are replaced by key references.  `gufe/base.py` is not under
`src/`. -/
inductive GufeObj where
  | mk (cls token : String) (deps : List GufeObj)

def GufeObj.key : GufeObj → GufeKey
  | .mk c t _ => ⟨c, t⟩

def GufeObj.deps : GufeObj → List GufeObj
  | .mk _ _ ds => ds

mutual
/-- Model of `get_all_gufe_objs(obj)` (resultclient.py): the object together with
every tokenizable object reachable through shallow representations.
Modelled from the spec (§4.5 "walk its full transitive reference graph"),
since the traversal helper `modify_dependencies` lives in `gufe/base.py`,
which is not under `src/`.  The Python function returns a set; the model
returns a list that may mention an object more than once, which the
presence check in `_store_gufe_tokenizable` makes observably equivalent. -/
def GufeObj.allObjs : GufeObj → List GufeObj
  | .mk c t ds => .mk c t ds :: allObjsList ds

def allObjsList : List GufeObj → List GufeObj
  | [] => []
  | o :: os => o.allObjs ++ allObjsList os
end

/-- Model of `ResultClient._gufe_key_to_storage_key`: with `key = <cls>-<token>`,
`"/".join(prefix.split('/') + [cls, token + ".json"])`, which equals
`prefix ++ "/" ++ cls ++ "/" ++ token ++ ".json"` because splitting a
string on `/` and re-joining with `/` is the identity. -/
def gufeKeyToStorageKey (ns : String) (k : GufeKey) : String :=
  ns ++ "/" ++ k.cls ++ "/" ++ k.token ++ ".json"

/-- Modelled from the spec: the `ResultServer` Storage Facade
(resultserver.py is not under `src/`).  Spec §4.3/§4.5: `store_bytes`
physically writes a record and makes its location known;
`key in result_server` asks whether the location is known.  `locations` is
the set of known locations, `writeLog` records every physical write in
order. -/
structure ResultServerState where
  locations : List String
  writeLog : List String
deriving DecidableEq, Repr

/-- Model of `ResultServer.store_bytes` (modelled from the spec): one physical
write. -/
def storeBytes (s : ResultServerState) (loc : String) : ResultServerState :=
  ⟨s.locations ++ [loc], s.writeLog ++ [loc]⟩

/-- One iteration of the loop in `ResultClient._store_gufe_tokenizable`:
store the object only if its storage key is not already known. -/
def storeOneKey (acc : ResultServerState) (key : String) : ResultServerState :=
  if key ∈ acc.locations then acc else storeBytes acc key

/-- The same loop over an arbitrary list of storage keys. -/
def storeKeys (ks : List String) (s : ResultServerState) : ResultServerState :=
  ks.foldl storeOneKey s

/-- Model of `ResultClient._store_gufe_tokenizable(prefix, obj)`. -/
def storeGufeTokenizable (ns : String) (obj : GufeObj)
    (s : ResultServerState) : ResultServerState :=
  storeKeys (obj.allObjs.map (fun o => gufeKeyToStorageKey ns o.key)) s

/-! ## Graph reconstruction (claim C4) -/

/-- Modelled from the spec: the serialized record stored at one storage key,
as consumed by `_load_gufe_tokenizable` — `refs` is the set of
`":gufe-key:"` reference markers the regex scan finds in the JSON text of the record,
and `(cls, token)` is what `key_decode_dependencies` (in `gufe/base.py`,
not under `src/`) rebuilds the object from. -/
structure StoredRecord where
  cls : String
  token : String
  refs : List GufeKey
deriving DecidableEq, Repr

/-- Failures of graph reconstruction: `missingDependency loc` models the
`MissingExternalResourceError` that `self.load_stream(storage_key)` raises
when no record exists at `loc`; `outOfFuel` is an artefact of the fuelled
embedding of the (unguarded) Python recursion. -/
inductive LoadError where
  | missingDependency (loc : String)
  | outOfFuel
deriving DecidableEq, Repr

/-- The dependency loop of `recursive_build_object_cache`: build every
referenced object, stopping at the first failure (a raised exception
aborts the Python loop the same way). -/
def buildEach (f : GufeKey → Except LoadError GufeObj) :
    List GufeKey → Except LoadError (List GufeObj)
  | [] => .ok []
  | k :: ks =>
    match f k with
    | .error e => .error e
    | .ok o =>
      match buildEach f ks with
      | .error e => .error e
      | .ok os => .ok (o :: os)

/-- Model of `recursive_build_object_cache` inside
`ResultClient._load_gufe_tokenizable`: look up the record stored at the
storage key derived from the gufe key (raising a missing-resource error if
there is none), recursively build every referenced object, then rebuild
this object.  The Python recursion carries no fuel; `fuel` makes the
embedding total, and any derivation that Python completes is reproduced
with any sufficiently large fuel. -/
def recursiveBuildObjectCache (ns : String)
    (store : List (String × StoredRecord)) :
    Nat → GufeKey → Except LoadError GufeObj
  | 0, _ => .error .outOfFuel
  | fuel + 1, gkey =>
    match List.lookup (gufeKeyToStorageKey ns gkey) store with
    | none => .error (.missingDependency (gufeKeyToStorageKey ns gkey))
    | some r =>
      match buildEach (recursiveBuildObjectCache ns store fuel) r.refs with
      | .error e => .error e
      | .ok ds => .ok (.mk r.cls r.token ds)

/-- The key-reference reachability relation of a record store: `Reaches ns
store k k'` holds when `k'` can be reached from `k` by following stored
reference markers. -/
inductive Reaches (ns : String) (store : List (String × StoredRecord)) :
    GufeKey → GufeKey → Prop where
  | refl (k : GufeKey) : Reaches ns store k k
  | step {k km k' : GufeKey} {r : StoredRecord}
      (hr : List.lookup (gufeKeyToStorageKey ns k) store = some r)
      (hm : km ∈ r.refs) (h : Reaches ns store km k') :
      Reaches ns store k k'

/-! ## The result hierarchy (claims C6, C7, C8, C9, C10)

`_ResultContainer` instances are mutable Python objects (each owns a child
cache filled in place).  The embedding makes the heap explicit: a system
`Sys` holds every node created so far, and a node is identified by its
index in that list.  `__getitem__` becomes a function from a system to a
system (possibly extended by one node) and a result. -/

/-- The dynamic class of a node: `ResultClient`, `TransformationResult`,
`CloneResult` or `ExtensionResult`. -/
inductive Level where
  | client
  | transformation
  | clone
  | extension
deriving DecidableEq, Repr

/-- The class of the child that `_load_next_level` creates.  An
`ExtensionResult` never creates a child node (its `__getitem__` is
overridden), so the `extension` case is never used. -/
def nextLevel : Level → Level
  | .client => .transformation
  | .transformation => .clone
  | .clone => .extension
  | .extension => .extension

/-- One Python process run: the values of the runtime built-ins `hash`
(whose value on a non-string object is not stable across runs) and `str`,
on the non-string objects in play. -/
structure PyRun where
  hashFn : Nat → Int
  strFn : Nat → String

/-- An argument to `__getitem__` / `__truediv__`: either a string or an
arbitrary hashable non-string object, identified by `ident`. -/
inductive Item where
  | str (s : String)
  | obj (ident : Nat)
deriving DecidableEq, Repr

/-- Model of `_ResultContainer._to_path_component` (the base static method): strings
pass through; any other object becomes `str(hash(item))` — the runtime
hash of the current process run. -/
def toPathComponentBase (run : PyRun) : Item → String
  | .str s => s
  | .obj o => toString (run.hashFn o)

/-- Python `str(item)`: the overridden `_to_path_component` of
`CloneResult` and `ExtensionResult`. -/
def pyStr (run : PyRun) : Item → String
  | .str s => s
  | .obj o => run.strFn o

/-- Model of `self._to_path_component(item)` resolved at the dynamic class of the
node. -/
def toPathComponent (run : PyRun) : Level → Item → String
  | .client, it => toPathComponentBase run it
  | .transformation, it => toPathComponentBase run it
  | .clone, it => pyStr run it
  | .extension, it => pyStr run it

/-- One `_ResultContainer` object: its class, its parent (a heap index; the
root points at itself), the normalised `_path_component` stored by the
constructor, and the `_cache` dict from normalised component to the child
heap index of the node.  (`ResultClient` is constructed with
`path_component=None`; its stored component is never read because
`ResultClient.path` is overridden, and the model stores `""`.) -/
structure RNode where
  level : Level
  parent : Nat
  pathComponent : String
  cache : List (String × Nat)
deriving DecidableEq, Repr

/-- The heap of nodes plus the locations known to the result server
(modelled from the spec §4.3: the facade knows which locations exist;
`resultserver.py` is not under `src/`). -/
structure Sys where
  nodes : List RNode
  serverLocations : List String
deriving DecidableEq, Repr

/-- Model of `path` with explicit fuel for the walk along parent links:
`ResultClient.path` is the literal `"transformations"`, every other node
returns `self.parent.path + "/" + self._path_component`. -/
def pathOfAux (sys : Sys) : Nat → Nat → String
  | 0, _ => ""
  | fuel + 1, nid =>
    match sys.nodes[nid]? with
    | none => ""
    | some n =>
      match n.level with
      | .client => "transformations"
      | _ => pathOfAux sys fuel n.parent ++ "/" ++ n.pathComponent

/-- Model of `path` of the node at heap index `nid`.  In a well-formed system every
parent of every non-root node has a smaller heap index (children are allocated
after their parents), so fuel `nid + 1` always suffices. -/
def pathOf (sys : Sys) (nid : Nat) : String := pathOfAux sys (nid + 1) nid

/-- What indexing produces: a byte stream opened by
`result_server.load_stream(loc)`, a child container node, or — on the
extension-level override only — the `TypeError` that Python raises from
`self.path + "/" + filename` when `filename` is not a string
(concatenating a non-string onto a string is an error, not a
conversion). -/
inductive LookupResult where
  | stream (loc : String)
  | node (id : Nat)
  | typeError
deriving DecidableEq, Repr

/-- Model of `item in self.result_server` (modelled from the spec: facade membership
is membership of the raw item among the known string locations, so a
non-string item is never a member). -/
def isLocation (locs : List String) : Item → Bool
  | .str s => decide (s ∈ locs)
  | .obj _ => false

/-- The location that `self.result_server.load_stream(item)` receives in
the leaf-file branch (that branch is only reachable for string items). -/
def itemLocation : Item → String
  | .str s => s
  | .obj _ => ""

/-- Model of `ExtensionResult._load_next_level(filename)`:
`self.result_server.load_stream(self.path + "/" + filename)`.  The string
concatenation succeeds only when `filename` is a string; for any other
item it raises `TypeError` (there is no `str()` conversion here, unlike
in `_to_path_component`). -/
def extensionLookup (sys : Sys) (nid : Nat) : Item → LookupResult
  | .str s => .stream (pathOf sys nid ++ "/" ++ s)
  | .obj _ => .typeError

/-- The body of the inherited `_ResultContainer.__getitem__` for a node `n`
of class `lvl` (not `ExtensionResult`): if the raw item is a known
location, return a stream for it; otherwise normalise the item, and
either return the cached child or allocate the child node built by
`_load_next_level` and record it in the cache. -/
def getitemBase (run : PyRun) (sys : Sys) (nid : Nat) (item : Item)
    (n : RNode) (lvl : Level) : Sys × Option LookupResult :=
  if isLocation sys.serverLocations item then
    (sys, some (.stream (itemLocation item)))
  else
    let hashItem := toPathComponent run lvl item
    match List.lookup hashItem n.cache with
    | some cid => (sys, some (.node cid))
    | none =>
      let cid := sys.nodes.length
      let child : RNode :=
        ⟨nextLevel lvl, nid, toPathComponent run (nextLevel lvl) item, []⟩
      let nodes' := (sys.nodes ++ [child]).set nid
        { n with cache := n.cache ++ [(hashItem, cid)] }
      ({ sys with nodes := nodes' }, some (.node cid))

/-- Model of `__getitem__` (the inherited one, or the `ExtensionResult` override
when the class of the node is `ExtensionResult`): returns the possibly extended
heap and the result (`none` only when `nid` is not a live node, which
never happens for nodes obtained from the API). -/
def getitem (run : PyRun) (sys : Sys) (nid : Nat) (item : Item) :
    Sys × Option LookupResult :=
  match sys.nodes[nid]? with
  | none => (sys, none)
  | some n =>
    match n.level with
    | .extension => (sys, some (extensionLookup sys nid item))
    | lvl => getitemBase run sys nid item n lvl

/-- Model of `_ResultContainer.__truediv__`: `return self[item]`. -/
def truediv (run : PyRun) (sys : Sys) (nid : Nat) (item : Item) :
    Sys × Option LookupResult :=
  getitem run sys nid item

/-- A fresh `ResultClient` over a server that knows the given locations:
one root node at heap index 0. -/
def initSys (locs : List String) : Sys :=
  ⟨[⟨.client, 0, "", []⟩], locs⟩

/-- Well-formedness of one heap entry: the root is a `ResultClient`, and
the parent of every other node was allocated before it. -/
def wfNode (i : Nat) (n : RNode) : Bool :=
  n.level == .client || decide (n.parent < i)

/-- Well-formedness of the heap. -/
def WFSys (sys : Sys) : Bool :=
  sys.nodes.enum.all (fun p => wfNode p.1 p.2)

/-! ## Concrete fixtures used in closed statements -/

/-- A process run in which every non-string object hashes to `0`. -/
def run0 : PyRun := ⟨fun _ => 0, fun _ => "obj"⟩

/-- A first process run in which the object `0` hashes to `11`. -/
def run1 : PyRun := ⟨fun _ => 11, fun _ => "obj"⟩

/-- A second process run in which the object `0` hashes to `22`. -/
def run2 : PyRun := ⟨fun _ => 22, fun _ => "obj"⟩

/-- A client root whose server knows the location `"zzz"`. -/
def sysA : Sys := ⟨[⟨.client, 0, "", []⟩], ["zzz"]⟩

/-- A root / transformation / clone / extension chain whose server knows
the location `"f"`. -/
def sysB : Sys :=
  ⟨[⟨.client, 0, "", []⟩, ⟨.transformation, 0, "t", []⟩,
    ⟨.clone, 1, "c", []⟩, ⟨.extension, 2, "e", []⟩], ["f"]⟩

/-- A concrete gufe key for a stored transformation record. -/
def keyA : GufeKey := ⟨"Transformation", "aaa111"⟩

/-- A concrete gufe key that is referenced but never stored. -/
def keyB : GufeKey := ⟨"ChemicalSystem", "bbb222"⟩

/-- A record store holding one record, for `keyA`, which references the
absent `keyB`. -/
def storeC4 : List (String × StoredRecord) :=
  [("setup/Transformation/aaa111.json",
    ⟨"Transformation", "aaa111", [keyB]⟩)]

/-- A rank certificate of acyclicity for `storeC4`. -/
def rankC4 : GufeKey → Nat := fun k => if k = keyB then 0 else 1

end Gufe

namespace Gufe

/-! ## Supporting lemmas -/

theorem isAbs_append (a b : String) (h : isAbs a = true) :
    isAbs (a ++ b) = true := by
  unfold isAbs at h ⊢
  rw [String.data_append]
  rcases ha : a.data with _ | ⟨c, cs⟩ <;> rw [ha] at h <;> simp_all

theorem isAbs_asPath (root loc : String) (h : isAbs root = true) :
    isAbs (asPath root loc) = true := by
  unfold asPath
  by_cases habs : isAbs loc = true
  · simp [habs]
  · simp only [habs, if_false, Bool.false_eq_true]
    exact isAbs_append _ _ (isAbs_append _ _ h)

theorem asPath_abs (root p : String) (h : isAbs p = true) :
    asPath root p = p := by
  unfold asPath; simp [h]

theorem asPath_idem (root loc : String) (h : isAbs root = true) :
    asPath root (asPath root loc) = asPath root loc :=
  asPath_abs root _ (isAbs_asPath root loc h)

theorem lookup_append_none {α : Type} [BEq α] {β : Type}
    (l l' : List (α × β)) (k : α) (h : List.lookup k l = none) :
    List.lookup k (l ++ l') = List.lookup k l' := by
  induction l with
  | nil => rfl
  | cons p l ih =>
    obtain ⟨a, b⟩ := p
    rw [List.cons_append]
    simp only [List.lookup] at h ⊢
    cases hb : k == a with
    | true => rw [hb] at h; simp at h
    | false =>
      rw [hb] at h
      simp only
      exact ih h

theorem getitem_of_level (run : PyRun) (sys : Sys) (nid : Nat) (item : Item)
    (n : RNode) (hn : sys.nodes[nid]? = some n)
    (hlv : ¬ n.level = .extension) :
    getitem run sys nid item = getitemBase run sys nid item n n.level := by
  cases hlvv : n.level with
  | extension => exact absurd hlvv hlv
  | client => simp [getitem, hn, hlvv]
  | transformation => simp [getitem, hn, hlvv]
  | clone => simp [getitem, hn, hlvv]

theorem WFSys_iff (sys : Sys) : WFSys sys = true ↔
    ∀ i n, sys.nodes[i]? = some n → wfNode i n = true := by
  constructor
  · intro hwf i n hn
    exact List.all_eq_true.mp hwf (i, n) (List.mem_enum_iff_getElem?.mpr hn)
  · intro h
    apply List.all_eq_true.mpr
    intro p hp
    exact h p.1 p.2 (List.mem_enum_iff_getElem?.mp (by simpa using hp))

theorem wfNode_parent {i : Nat} {n : RNode} (h : wfNode i n = true)
    (hlv : ¬ n.level = .client) : n.parent < i := by
  unfold wfNode at h
  rcases Bool.or_eq_true_iff.mp h with h1 | h2
  · exact absurd (by simpa using h1) hlv
  · simpa using h2

theorem pathOfAux_fuel (sys : Sys) (hwf : WFSys sys = true) :
    ∀ i f1 f2, i < f1 → i < f2 → pathOfAux sys f1 i = pathOfAux sys f2 i := by
  intro i
  induction i using Nat.strong_induction_on with
  | _ i ih =>
    intro f1 f2 h1 h2
    cases f1 with
    | zero => exact absurd h1 (by simp)
    | succ a =>
      cases f2 with
      | zero => exact absurd h2 (by simp)
      | succ b =>
        simp only [pathOfAux]
        cases hn : sys.nodes[i]? with
        | none => rfl
        | some n =>
          dsimp only
          have hstep : ∀ f, ¬ n.level = .client →
              (match n.level with
                | Level.client => "transformations"
                | _ => pathOfAux sys f n.parent ++ "/" ++ n.pathComponent)
              = pathOfAux sys f n.parent ++ "/" ++ n.pathComponent := by
            intro f hlv
            cases hlv2 : n.level with
            | client => exact absurd hlv2 hlv
            | transformation => rfl
            | clone => rfl
            | extension => rfl
          by_cases hlv : n.level = .client
          · rw [hlv]
          · rw [hstep a hlv, hstep b hlv]
            have hp : n.parent < i := wfNode_parent
              ((WFSys_iff sys).mp hwf i n hn) hlv
            rw [ih n.parent hp a b
              (Nat.lt_of_lt_of_le hp (Nat.lt_succ_iff.mp h1))
              (Nat.lt_of_lt_of_le hp (Nat.lt_succ_iff.mp h2))]

theorem wf_initSys (locs : List String) : WFSys (initSys locs) = true := rfl

theorem wf_getitem (run : PyRun) (sys : Sys) (nid : Nat) (item : Item)
    (hwf : WFSys sys = true) :
    WFSys (getitem run sys nid item).1 = true := by
  cases hn : sys.nodes[nid]? with
  | none => simpa [getitem, hn] using hwf
  | some n =>
    have hlt : nid < sys.nodes.length := by
      by_contra hge
      rw [List.getElem?_eq_none (Nat.le_of_not_lt hge)] at hn
      exact absurd hn (by simp)
    by_cases hlv : n.level = .extension
    · simpa [getitem, hn, hlv] using hwf
    · rw [getitem_of_level run sys nid item n hn hlv]
      unfold getitemBase
      by_cases hloc : isLocation sys.serverLocations item = true
      · simpa [hloc] using hwf
      · simp only [hloc, Bool.false_eq_true, if_false]
        cases hc : List.lookup (toPathComponent run n.level item) n.cache with
        | some cid => simpa using hwf
        | none =>
          simp only
          rw [WFSys_iff]
          intro i m hm
          simp only at hm
          by_cases hi : i = nid
          · subst hi
            rw [List.getElem?_set_self (by simp; omega)] at hm
            injection hm with hm'
            subst hm'
            exact (WFSys_iff sys).mp hwf i n hn
          · rw [List.getElem?_set_ne (Ne.symm hi)] at hm
            by_cases hilen : i < sys.nodes.length
            · rw [List.getElem?_append_left hilen] at hm
              exact (WFSys_iff sys).mp hwf i m hm
            · by_cases hieq : i = sys.nodes.length
              · subst hieq
                rw [List.getElem?_concat_length] at hm
                injection hm with hm'
                subst hm'
                unfold wfNode
                simp [hlt]
              · have : sys.nodes.length + 1 ≤ i := by omega
                rw [List.getElem?_eq_none (by simpa using this)] at hm
                exact absurd hm (by simp)

theorem storeKeys_spec (ks : List String) (s : ResultServerState) :
    ∃ new, (storeKeys ks s).locations = s.locations ++ new ∧
      (storeKeys ks s).writeLog = s.writeLog ++ new ∧
      new.Nodup ∧
      (∀ k ∈ new, ¬ k ∈ s.locations) ∧
      (∀ k ∈ ks, k ∈ (storeKeys ks s).locations) := by
  induction ks generalizing s with
  | nil => exact ⟨[], by simp [storeKeys], by simp [storeKeys],
      List.nodup_nil, by simp, by simp⟩
  | cons k ks ih =>
    by_cases hk : k ∈ s.locations
    · have hstep : storeKeys (k :: ks) s = storeKeys ks s := by
        simp [storeKeys, storeOneKey, hk]
      obtain ⟨new, h1, h2, h3, h4, h5⟩ := ih s
      refine ⟨new, by rw [hstep]; exact h1, by rw [hstep]; exact h2, h3, h4, ?_⟩
      intro k' hk'
      rw [hstep]
      rcases List.mem_cons.mp hk' with rfl | hk2
      · rw [h1]; exact List.mem_append_left _ hk
      · exact h5 _ hk2
    · have hstep : storeKeys (k :: ks) s = storeKeys ks (storeBytes s k) := by
        simp [storeKeys, storeOneKey, hk]
      obtain ⟨new, h1, h2, h3, h4, h5⟩ := ih (storeBytes s k)
      have hknew : ¬ k ∈ new := by
        intro hmem
        exact h4 k hmem (by simp [storeBytes])
      refine ⟨k :: new, ?_, ?_, ?_, ?_, ?_⟩
      · rw [hstep, h1]; simp [storeBytes]
      · rw [hstep, h2]; simp [storeBytes]
      · exact List.nodup_cons.mpr ⟨hknew, h3⟩
      · intro k' hk'
        rcases List.mem_cons.mp hk' with rfl | hk2
        · exact hk
        · intro hins
          exact h4 k' hk2 (by simp [storeBytes, hins])
      · intro k' hk'
        rw [hstep]
        rcases List.mem_cons.mp hk' with rfl | hk2
        · rw [h1]; simp [storeBytes]
        · exact h5 _ hk2

theorem storeKeys_all_present (ks : List String) (s : ResultServerState)
    (h : ∀ k ∈ ks, k ∈ s.locations) : storeKeys ks s = s := by
  induction ks with
  | nil => rfl
  | cons k ks ih =>
    have hk : k ∈ s.locations := h k (by simp)
    have : storeKeys (k :: ks) s = storeKeys ks s := by
      simp [storeKeys, storeOneKey, hk]
    rw [this]
    exact ih (fun k' hk' => h k' (by simp [hk']))

theorem buildEach_ok_mem {f : GufeKey → Except LoadError GufeObj}
    {ks : List GufeKey} {os : List GufeObj}
    (h : buildEach f ks = .ok os) :
    ∀ k ∈ ks, ∃ o, f k = .ok o := by
  induction ks generalizing os with
  | nil => intro k hk; simp at hk
  | cons k' ks ih =>
    intro k hk
    unfold buildEach at h
    cases hf : f k' with
    | error e => rw [hf] at h; exact absurd h (by simp)
    | ok o =>
      rw [hf] at h
      cases hb : buildEach f ks with
      | error e => rw [hb] at h; exact absurd h (by simp)
      | ok os' =>
        rw [hb] at h
        rcases List.mem_cons.mp hk with rfl | hk2
        · exact ⟨o, hf⟩
        · exact ih hb k hk2

theorem buildEach_ok_of_forall {f : GufeKey → Except LoadError GufeObj}
    {ks : List GufeKey} (h : ∀ k ∈ ks, ∃ o, f k = .ok o) :
    ∃ os, buildEach f ks = .ok os := by
  induction ks with
  | nil => exact ⟨[], rfl⟩
  | cons k ks ih =>
    obtain ⟨o, ho⟩ := h k (by simp)
    obtain ⟨os, hos⟩ := ih (fun k' hk' => h k' (by simp [hk']))
    exact ⟨o :: os, by unfold buildEach; rw [ho, hos]⟩

theorem build_ok_lookup {ns : String} {store : List (String × StoredRecord)}
    {fuel : Nat} {k : GufeKey} {obj : GufeObj}
    (h : recursiveBuildObjectCache ns store fuel k = .ok obj) :
    (List.lookup (gufeKeyToStorageKey ns k) store).isSome = true := by
  cases fuel with
  | zero => exact absurd h (by simp [recursiveBuildObjectCache])
  | succ fuel =>
    unfold recursiveBuildObjectCache at h
    cases hl : List.lookup (gufeKeyToStorageKey ns k) store with
    | none => rw [hl] at h; exact absurd h (by simp)
    | some r => simp [hl]

theorem build_ok_reaches {ns : String} {store : List (String × StoredRecord)} :
    ∀ {k k' : GufeKey}, Reaches ns store k k' →
    ∀ {fuel : Nat} {obj : GufeObj},
      recursiveBuildObjectCache ns store fuel k = .ok obj →
    ∃ fuel' obj', recursiveBuildObjectCache ns store fuel' k' = .ok obj' := by
  intro k k' hreach
  induction hreach with
  | refl k => intro fuel obj h; exact ⟨_, _, h⟩
  | @step k0 km k1 r hr hm hsub ih =>
    intro fuel obj h
    cases fuel with
    | zero => exact absurd h (by simp [recursiveBuildObjectCache])
    | succ fuel =>
      unfold recursiveBuildObjectCache at h
      rw [hr] at h
      dsimp only at h
      cases hb : buildEach (recursiveBuildObjectCache ns store fuel) r.refs with
      | error e => rw [hb] at h; exact absurd h (by simp)
      | ok ds =>
        obtain ⟨o, ho⟩ := buildEach_ok_mem hb _ hm
        exact ih ho





theorem build_ok_of_all_present {ns : String}
    {store : List (String × StoredRecord)} (rank : GufeKey → Nat)
    (hrank : ∀ k r km, List.lookup (gufeKeyToStorageKey ns k) store = some r →
      km ∈ r.refs → rank km < rank k) :
    ∀ fuel k, rank k < fuel →
    (∀ k', Reaches ns store k k' →
      (List.lookup (gufeKeyToStorageKey ns k') store).isSome = true) →
    ∃ obj, recursiveBuildObjectCache ns store fuel k = .ok obj := by
  intro fuel
  induction fuel with
  | zero => intro k hk; exact absurd hk (by simp)
  | succ fuel ih =>
    intro k hk hall
    have hself := hall k (Reaches.refl k)
    cases hl : List.lookup (gufeKeyToStorageKey ns k) store with
    | none => rw [hl] at hself; simp at hself
    | some r =>
      have hdeps : ∀ km ∈ r.refs,
          ∃ o, recursiveBuildObjectCache ns store fuel km = .ok o := by
        intro km hm
        exact ih km (lt_of_lt_of_le (hrank k r km hl hm) (Nat.lt_succ_iff.mp hk))
          (fun k' hk' => hall k' (Reaches.step hl hm hk'))
      obtain ⟨os, hos⟩ := buildEach_ok_of_forall hdeps
      refine ⟨.mk r.cls r.token os, ?_⟩
      unfold recursiveBuildObjectCache
      rw [hl]
      dsimp only
      rw [hos]

theorem buildEach_missing {ns : String}
    {store : List (String × StoredRecord)} {fuel : Nat} :
    ∀ ks : List GufeKey,
    (∀ km ∈ ks, (∀ k', Reaches ns store km k' →
      (List.lookup (gufeKeyToStorageKey ns k') store).isSome = true) →
      ∃ o, recursiveBuildObjectCache ns store fuel km = .ok o) →
    (∀ km ∈ ks, (∃ k', Reaches ns store km k' ∧
      List.lookup (gufeKeyToStorageKey ns k') store = none) →
      ∃ loc, recursiveBuildObjectCache ns store fuel km
        = .error (.missingDependency loc)) →
    (∃ km ∈ ks, ∃ k', Reaches ns store km k' ∧
      List.lookup (gufeKeyToStorageKey ns k') store = none) →
    ∃ loc, buildEach (recursiveBuildObjectCache ns store fuel) ks
      = .error (.missingDependency loc) := by
  intro ks
  induction ks with
  | nil => intro _ _ h; simp at h
  | cons km ks ih =>
    intro ihA ihB ⟨km0, hmem, hww⟩
    by_cases hmiss : ∃ k', Reaches ns store km k' ∧
        List.lookup (gufeKeyToStorageKey ns k') store = none
    · obtain ⟨loc, hloc⟩ := ihB km (by simp) hmiss
      refine ⟨loc, ?_⟩
      unfold buildEach
      rw [hloc]
    · have hall : ∀ k', Reaches ns store km k' →
          (List.lookup (gufeKeyToStorageKey ns k') store).isSome = true := by
        intro k' hk'
        cases hl : List.lookup (gufeKeyToStorageKey ns k') store with
        | none => exact absurd ⟨k', hk', hl⟩ hmiss
        | some r => simp
      obtain ⟨o, ho⟩ := ihA km (by simp) hall
      rcases List.mem_cons.mp hmem with rfl | hmem2
      · exact absurd hww hmiss
      · obtain ⟨loc, hloc⟩ := ih (fun km1 h1 => ihA km1 (by simp [h1]))
          (fun km1 h1 => ihB km1 (by simp [h1])) ⟨km0, hmem2, hww⟩
        refine ⟨loc, ?_⟩
        unfold buildEach
        rw [ho, hloc]

theorem build_missing_error {ns : String}
    {store : List (String × StoredRecord)} (rank : GufeKey → Nat)
    (hrank : ∀ k r km, List.lookup (gufeKeyToStorageKey ns k) store = some r →
      km ∈ r.refs → rank km < rank k) :
    ∀ fuel k, rank k < fuel →
    (∃ k', Reaches ns store k k' ∧
      List.lookup (gufeKeyToStorageKey ns k') store = none) →
    ∃ loc, recursiveBuildObjectCache ns store fuel k
      = .error (.missingDependency loc) := by
  intro fuel
  induction fuel with
  | zero => intro k hk; exact absurd hk (by simp)
  | succ fuel ih =>
    intro k hk ⟨k', hreach, hnone⟩
    cases hl : List.lookup (gufeKeyToStorageKey ns k) store with
    | none =>
      refine ⟨gufeKeyToStorageKey ns k, ?_⟩
      unfold recursiveBuildObjectCache
      rw [hl]
    | some r =>
      cases hreach with
      | refl => rw [hl] at hnone; exact absurd hnone (by simp)
      | @step _ km _ r' hr hm hsub =>
        rw [hl] at hr
        injection hr with hr'
        subst hr'
        have hlt : ∀ km' ∈ r.refs, rank km' < fuel := by
          intro km' hm'
          exact lt_of_lt_of_le (hrank k r km' hl hm') (Nat.lt_succ_iff.mp hk)
        have hB : ∃ km0 ∈ r.refs, ∃ k'', Reaches ns store km0 k'' ∧
            List.lookup (gufeKeyToStorageKey ns k'') store = none :=
          ⟨km, hm, k', hsub, hnone⟩
        obtain ⟨loc, hloc⟩ := buildEach_missing r.refs
          (fun km0 hm0 hall => build_ok_of_all_present rank hrank fuel km0
            (hlt km0 hm0) hall)
          (fun km0 hm0 hmiss0 => ih km0 (hlt km0 hm0) hmiss0)
          hB
        refine ⟨loc, ?_⟩
        unfold recursiveBuildObjectCache
        rw [hl]
        dsimp only
        rw [hloc]

theorem c4_hrank : ∀ k r km,
    List.lookup (gufeKeyToStorageKey "setup" k) storeC4 = some r →
    km ∈ r.refs → rankC4 km < rankC4 k := by
  intro k r km hl hm
  by_cases hk : k = keyB
  · subst hk
    simp [gufeKeyToStorageKey, keyB, storeC4, List.lookup] at hl
  · simp only [storeC4, List.lookup] at hl
    by_cases hbeq : (gufeKeyToStorageKey "setup" k
        == "setup/Transformation/aaa111.json") = true
    · rw [hbeq] at hl
      simp only [Option.some.injEq] at hl
      subst hl
      simp only [List.mem_singleton] at hm
      subst hm
      simp [rankC4, hk]
    · rw [Bool.not_eq_true] at hbeq
      rw [hbeq] at hl
      exact absurd hl (by simp)

/-! ## The claims -/

/-- Claim C1 (amended): storing a payload and loading it back with the
location and metadata returned by `store` succeeds and yields exactly the
stored bytes — unconditionally for the in-memory backend, and for the
filesystem backend provided the storage root directory is an absolute
path. -/
theorem c1_round_trip (md5hex : List Nat → String) (mem : Mem) (fs : FS)
    (rootDir loc : String) (P : List Nat) (habs : isAbs rootDir = true) :
    memRoundTrip md5hex mem loc P ∧ fileRoundTrip md5hex rootDir fs loc P := by
  constructor
  · unfold memRoundTrip
    simp [memStore, memGetMetadata, memLoadStreamRaw, memInsert,
      memLoadStream, memValidate, validateWith, allowChangedDefault,
      List.lookup]
  · unfold fileRoundTrip
    have hp := asPath_idem rootDir loc habs
    simp [fileStore, fileGetMetadata, fileLoadStreamRaw, fsInsert,
      fileLoadStream, fileValidate, validateWith, allowChangedDefault,
      hp, List.lookup]

/-- Claim C1, counterexample to the claim as stated: on a `FileStorage`
with the relative root directory `"data"`, storing at `"x"` does not round
trip — `_store` already fails, because it recomputes the metadata for the
returned full path `"data/x"`, which `_as_path` joins under the root again
to `"data/data/x"`, where nothing is stored. -/
theorem c1_counterexample :
    ¬ fileRoundTrip testDigest "data" ⟨[]⟩ "x" [7] ∧
    fileStore testDigest "data" ⟨[]⟩ "x" [7]
      = .error (.missingExternalResource "data/data/x") :=
  ⟨fun h => h, rfl⟩

/-- Witness for `c1_round_trip` at a concrete digest function, an absolute
root directory, location and payload. -/
theorem c1_round_trip_witness :
    isAbs "/store" = true ∧
    (memRoundTrip testDigest ⟨[]⟩ "x" [7] ∧
      fileRoundTrip testDigest "/store" ⟨[]⟩ "x" [7]) :=
  ⟨by decide, c1_round_trip testDigest ⟨[]⟩ ⟨[]⟩ "/store" "x" [7] (by decide)⟩

/-- Claim C2: on a location whose current content digest differs from the
expected metadata, `validate` — and therefore `load_stream` and
`get_filename` — fails with a `ChangedExternalResourceError` when
`allow_changed` is at its default (off), and succeeds with a non-fatal
warning when the flag has been opted in; for both backends. -/
theorem c2_digest_mismatch (md5hex : List Nat → String) (mem : Mem) (fs : FS)
    (rootDir loc floc metadata fmetadata : String) (P Q : List Nat)
    (hm : List.lookup loc mem.data = some P)
    (hmd : ¬ md5hex P = metadata)
    (hf : List.lookup (asPath rootDir floc) fs.files = some Q)
    (hfd : ¬ md5hex Q = fmetadata) :
    memMismatchBehaviour md5hex mem loc metadata P ∧
      fileMismatchBehaviour md5hex rootDir fs floc fmetadata Q := by
  constructor
  · simp [memMismatchBehaviour, memValidate, memLoadStream, memGetMetadata,
      memLoadStreamRaw, validateWith, allowChangedDefault, hm, hmd]
  · simp [fileMismatchBehaviour, fileValidate, fileLoadStream,
      fileGetFilename, fileGetMetadata, fileLoadStreamRaw, validateWith,
      allowChangedDefault, hf, hfd]

/-- Witness for `c2_digest_mismatch` at concrete stores whose content
digests differ from the expected metadata. -/
theorem c2_digest_mismatch_witness :
    (List.lookup "x" (Mem.data ⟨[("x", [1])]⟩) = some [1] ∧
      ¬ testDigest [1] = "zzz" ∧
      List.lookup (asPath "/s" "y") (FS.files ⟨[("/s/y", [2])]⟩) = some [2] ∧
      ¬ testDigest [2] = "www") ∧
    memMismatchBehaviour testDigest ⟨[("x", [1])]⟩ "x" "zzz" [1] ∧
      fileMismatchBehaviour testDigest "/s" ⟨[("/s/y", [2])]⟩ "y" "www" [2] :=
  ⟨⟨by decide, by decide, by decide, by decide⟩,
    c2_digest_mismatch testDigest ⟨[("x", [1])]⟩ ⟨[("/s/y", [2])]⟩ "/s" "x" "y" "zzz" "www"
      [1] [2] (by decide) (by decide) (by decide) (by decide)⟩

/-- Claim C3: `_store_gufe_tokenizable` skips every reachable object whose
storage key is already known to the result server: the known locations are
extended only by fresh keys, each physically written exactly once (the new
portion of the write log has no duplicates and is disjoint from the
previously known locations), and repeating the same store performs no
further write. -/
theorem c3_store_dedup (ns : String) (obj : GufeObj) (s : ResultServerState) :
    ∃ new, (storeGufeTokenizable ns obj s).locations = s.locations ++ new ∧
      (storeGufeTokenizable ns obj s).writeLog = s.writeLog ++ new ∧
      new.Nodup ∧
      (∀ k ∈ new, ¬ k ∈ s.locations) ∧
      storeGufeTokenizable ns obj (storeGufeTokenizable ns obj s)
        = storeGufeTokenizable ns obj s := by
  obtain ⟨new, h1, h2, h3, h4, h5⟩ :=
    storeKeys_spec (obj.allObjs.map (fun o => gufeKeyToStorageKey ns o.key)) s
  exact ⟨new, h1, h2, h3, h4, storeKeys_all_present _ _ h5⟩

/-- Claim C4: during graph reconstruction, if `recursiveBuildObjectCache`
returns an object then every key reachable from the root key resolves in
the store (no partial object graph is ever returned); and on an acyclic
store (witnessed by a rank function) with sufficient fuel, the presence of
any unresolvable reachable key makes the whole reconstruction abort with a
single missing-dependency error. -/
theorem c4_missing_dependency_aborts (ns : String) (store : List (String × StoredRecord))
    (rank : GufeKey → Nat)
    (hrank : ∀ k r km, List.lookup (gufeKeyToStorageKey ns k) store = some r →
      km ∈ r.refs → rank km < rank k)
    (fuel : Nat) (k : GufeKey) (hfuel : rank k < fuel) :
    (∀ obj, recursiveBuildObjectCache ns store fuel k = .ok obj →
      ∀ k', Reaches ns store k k' →
        (List.lookup (gufeKeyToStorageKey ns k') store).isSome = true) ∧
    ((∃ k', Reaches ns store k k' ∧
        List.lookup (gufeKeyToStorageKey ns k') store = none) →
      ∃ loc, recursiveBuildObjectCache ns store fuel k
        = .error (.missingDependency loc)) := by
  constructor
  · intro obj hok k' hr
    obtain ⟨f', o', h'⟩ := build_ok_reaches hr hok
    exact build_ok_lookup h'
  · exact build_missing_error rank hrank fuel k hfuel

/-- Witness for `c4_missing_dependency_aborts` on a concrete store whose
only record references an absent key: the reconstruction aborts with the
missing-dependency error naming the absent record. -/
theorem c4_missing_dependency_witness :
    (∀ k r km, List.lookup (gufeKeyToStorageKey "setup" k) storeC4 = some r →
      km ∈ r.refs → rankC4 km < rankC4 k) ∧
    rankC4 keyA < 2 ∧
    ((∀ obj, recursiveBuildObjectCache "setup" storeC4 2 keyA = .ok obj →
      ∀ k', Reaches "setup" storeC4 keyA k' →
        (List.lookup (gufeKeyToStorageKey "setup" k') storeC4).isSome = true) ∧
    ((∃ k', Reaches "setup" storeC4 keyA k' ∧
        List.lookup (gufeKeyToStorageKey "setup" k') storeC4 = none) →
      ∃ loc, recursiveBuildObjectCache "setup" storeC4 2 keyA
        = .error (.missingDependency loc))) ∧
    recursiveBuildObjectCache "setup" storeC4 2 keyA
      = .error (.missingDependency "setup/ChemicalSystem/bbb222.json") :=
  ⟨c4_hrank, by decide,
    c4_missing_dependency_aborts "setup" storeC4 rankC4 c4_hrank 2 keyA (by decide), rfl⟩

/-- Claim C5 (behaviour at a missing location, exhibiting the divergence):
`FileStorage` wraps the failed `open` in `MissingExternalResourceError` for
`load_stream` and `get_metadata`, and both backends raise
`MissingExternalResourceError` from `delete`; but the `MemoryStorage`
method `_load_stream` subscripts the dict directly, so its `load_stream` and
`get_metadata` raise a bare `KeyError` instead of the ResourceMissing-kind
error the claim requires. -/
theorem c5_missing_location :
    memLoadStream testDigest allowChangedDefault ⟨[]⟩ "x" "m"
        = .error (.keyError "x") ∧
    memGetMetadata testDigest ⟨[]⟩ "x" = .error (.keyError "x") ∧
    memDelete ⟨[]⟩ "x"
        = .error (.missingExternalResource
            "Unable to delete x: key does not exist") ∧
    fileLoadStream testDigest allowChangedDefault "/s" ⟨[]⟩ "x" "m"
        = .error (.missingExternalResource "/s/x") ∧
    fileGetMetadata testDigest "/s" ⟨[]⟩ "x"
        = .error (.missingExternalResource "/s/x") ∧
    fileDelete "/s" ⟨[]⟩ "x"
        = .error (.missingExternalResource
            "Unable to delete /s/x: File does not exist") :=
  ⟨rfl, rfl, rfl, rfl, rfl, rfl⟩

/-- Claim C6: the system built by the API is well-formed (the fresh root is
well-formed and `__getitem__` preserves well-formedness), the path of the root
`ResultClient` is the fixed literal `"transformations"`, and every
path of every non-root node equals the path of its parent followed by `"/"` and its
own path component — hence any two traversals reaching the same node
compute the same path. -/
theorem c6_path_invariant (run : PyRun) (sys : Sys) (nid : Nat) (item : Item)
    (locs : List String) (n : RNode)
    (hwf : WFSys sys = true) (hn : sys.nodes[nid]? = some n) :
    WFSys (initSys locs) = true ∧
    WFSys (getitem run sys nid item).1 = true ∧
    (n.level = .client → pathOf sys nid = "transformations") ∧
    (¬ n.level = .client →
      pathOf sys nid = pathOf sys n.parent ++ "/" ++ n.pathComponent) := by
  refine ⟨wf_initSys locs, wf_getitem run sys nid item hwf, ?_, ?_⟩
  · intro hlv
    unfold pathOf pathOfAux
    rw [hn]
    dsimp only
    rw [hlv]
  · intro hlv
    have hp : n.parent < nid := wfNode_parent
      ((WFSys_iff sys).mp hwf nid n hn) hlv
    unfold pathOf
    conv_lhs => rw [pathOfAux]
    rw [hn]
    dsimp only
    have hfuel : pathOfAux sys nid n.parent
        = pathOfAux sys (n.parent + 1) n.parent :=
      pathOfAux_fuel sys hwf n.parent nid (n.parent + 1) hp (Nat.lt_succ_self _)
    cases hlv2 : n.level with
    | client => exact absurd hlv2 hlv
    | transformation => dsimp only; rw [hfuel]
    | clone => dsimp only; rw [hfuel]
    | extension => dsimp only; rw [hfuel]

/-- Witness for `c6_path_invariant` at the extension node of a concrete
four-level chain. -/
theorem c6_path_invariant_witness :
    (WFSys sysB = true ∧ sysB.nodes[3]? = some ⟨.extension, 2, "e", []⟩) ∧
    (WFSys (initSys ["f"]) = true ∧
      WFSys (getitem run0 sysB 3 (.str "x")).1 = true ∧
      ((RNode.mk .extension 2 "e" []).level = .client →
        pathOf sysB 3 = "transformations") ∧
      (¬ (RNode.mk .extension 2 "e" []).level = .client →
        pathOf sysB 3
          = pathOf sysB (RNode.mk .extension 2 "e" []).parent ++ "/"
            ++ (RNode.mk .extension 2 "e" []).pathComponent)) :=
  ⟨⟨by decide, by decide⟩,
    c6_path_invariant run0 sysB 3 (.str "x") ["f"] ⟨.extension, 2, "e", []⟩
      (by decide) (by decide)⟩

/-- Claim C7, counterexample to the claim as stated: (i) the membership
check is on the raw item against the whole result server, not on locations
directly beneath the node — the root returns a stream for the existing
location `"zzz"` even though `"zzz"` is not beneath the root path
`"transformations"` (the claim would require a child container here); and
(ii) an extension-level node never performs the check and never returns a
child: although `"f"` is an existing location, indexing the extension node
returns a stream for `path + "/" + item`, not for `"f"`. -/
theorem c7_counterexample :
    ("zzz" ∈ sysA.serverLocations ∧
      ¬ "transformations/zzz" ∈ sysA.serverLocations ∧
      getitem run0 sysA 0 (.str "zzz") = (sysA, some (.stream "zzz")) ∧
      "zzz".startsWith (pathOf sysA 0 ++ "/") = false) ∧
    ("f" ∈ sysB.serverLocations ∧
      getitem run0 sysB 3 (.str "f")
        = (sysB, some (.stream "transformations/t/c/e/f")) ∧
      ¬ getitem run0 sysB 3 (.str "f") = (sysB, some (.stream "f"))) :=
  ⟨⟨by decide, by decide, by decide, by decide⟩,
    by decide, by decide, by decide⟩

/-- Claim C7 (amended): for every container node other than an
extension-level node, indexing first checks whether the raw item is an
existing location anywhere in the result server and, if so, returns a
stream for that location; only otherwise does it treat the item as a
child-container identifier and return a child node.  An extension-level
node performs no such check: for a string item it returns a stream for
its own path extended by `"/"` and the item, and for any non-string item
the concatenation `self.path + "/" + filename` raises `TypeError`. -/
theorem c7_lookup_amended (run : PyRun) (sys : Sys) (nid : Nat) (item : Item)
    (n : RNode) (hn : sys.nodes[nid]? = some n) :
    (¬ n.level = .extension →
      (isLocation sys.serverLocations item = true →
        getitem run sys nid item = (sys, some (.stream (itemLocation item)))) ∧
      (isLocation sys.serverLocations item = false →
        ∃ cid, (getitem run sys nid item).2 = some (.node cid))) ∧
    (n.level = .extension →
      (∀ s, item = .str s →
        getitem run sys nid item
          = (sys, some (.stream (pathOf sys nid ++ "/" ++ s)))) ∧
      (∀ o, item = .obj o →
        getitem run sys nid item = (sys, some .typeError))) := by
  constructor
  · intro hlv
    constructor
    · intro hloc
      rw [getitem_of_level run sys nid item n hn hlv]
      simp [getitemBase, hloc]
    · intro hloc
      rw [getitem_of_level run sys nid item n hn hlv]
      unfold getitemBase
      simp only [hloc, Bool.false_eq_true, if_false]
      cases hc : List.lookup (toPathComponent run n.level item) n.cache with
      | some cid => exact ⟨cid, rfl⟩
      | none => exact ⟨sys.nodes.length, rfl⟩
  · intro hlv
    constructor
    · intro s hs
      subst hs
      simp [getitem, hn, hlv, extensionLookup]
    · intro o ho
      subst ho
      simp [getitem, hn, hlv, extensionLookup]

/-- Witness for `c7_lookup_amended` at the extension node of a concrete
four-level chain, together with a concrete run of the `TypeError` path for
a non-string item. -/
theorem c7_lookup_amended_witness :
    sysB.nodes[3]? = some ⟨.extension, 2, "e", []⟩ ∧
    ((¬ (RNode.mk .extension 2 "e" []).level = .extension →
      (isLocation sysB.serverLocations (.str "f") = true →
        getitem run0 sysB 3 (.str "f")
          = (sysB, some (.stream (itemLocation (.str "f"))))) ∧
      (isLocation sysB.serverLocations (.str "f") = false →
        ∃ cid, (getitem run0 sysB 3 (.str "f")).2 = some (.node cid))) ∧
    ((RNode.mk .extension 2 "e" []).level = .extension →
      (∀ s, (Item.str "f") = .str s →
        getitem run0 sysB 3 (.str "f")
          = (sysB, some (.stream (pathOf sysB 3 ++ "/" ++ s)))) ∧
      (∀ o, (Item.str "f") = .obj o →
        getitem run0 sysB 3 (.str "f") = (sysB, some .typeError)))) ∧
    getitem run0 sysB 3 (.obj 0) = (sysB, some .typeError) :=
  ⟨by decide,
    c7_lookup_amended run0 sysB 3 (.str "f") ⟨.extension, 2, "e", []⟩
      (by decide),
    by decide⟩

/-- Claim C8: indexing is idempotent on the heap — after one lookup, the
same lookup returns the very same result (in particular the same cached
child node instance) and leaves the system unchanged, so a child is
constructed at most once per parent and logical key. -/
theorem c8_getitem_memoized (run : PyRun) (sys : Sys) (nid : Nat) (item : Item) :
    getitem run (getitem run sys nid item).1 nid item
      = getitem run sys nid item := by
  cases hn : sys.nodes[nid]? with
  | none => simp [getitem, hn]
  | some n =>
    have hlt : nid < sys.nodes.length := by
      by_contra hge
      rw [List.getElem?_eq_none (Nat.le_of_not_lt hge)] at hn
      exact absurd hn (by simp)
    by_cases hlv : n.level = .extension
    · simp [getitem, hn, hlv]
    · rw [getitem_of_level run sys nid item n hn hlv]
      by_cases hloc : isLocation sys.serverLocations item = true
      · simp only [getitemBase, hloc, if_true]
        rw [getitem_of_level run sys nid item n hn hlv]
        simp [getitemBase, hloc]
      · cases hc : List.lookup (toPathComponent run n.level item) n.cache with
        | some cid =>
          simp only [getitemBase, hloc, if_false]
          simp only [Bool.not_eq_true] at hloc
          simp only [hloc, Bool.false_eq_true, if_false, hc]
          rw [getitem_of_level run sys nid item n hn hlv]
          simp [getitemBase, hloc, hc]
        | none =>
          simp only [getitemBase, hloc, if_false, hc]
          set n' : RNode := { n with cache :=
            n.cache ++ [(toPathComponent run n.level item, sys.nodes.length)] } with hn'
          set child : RNode :=
            ⟨nextLevel n.level, nid, toPathComponent run (nextLevel n.level) item, []⟩ with hchild
          set sys1 : Sys :=
            { sys with nodes := (sys.nodes ++ [child]).set nid n' } with hsys1
          simp only [Bool.not_eq_true] at hloc
          simp only [hloc, Bool.false_eq_true, if_false]
          have hget1 : sys1.nodes[nid]? = some n' := by
            rw [hsys1]
            simp only
            rw [List.getElem?_set_self]
            exact Nat.lt_of_lt_of_le hlt (by simp)
          have hlv' : ¬ n'.level = .extension := by
            rw [hn']; exact hlv
          rw [getitem_of_level run sys1 nid item n' hget1 hlv']
          have hlevel' : n'.level = n.level := by rw [hn']
          have hloc1 : isLocation sys1.serverLocations item = false := by
            rw [hsys1]; exact hloc
          simp only [getitemBase, hloc1, Bool.false_eq_true, if_false, hlevel']
          have hcache : List.lookup (toPathComponent run n.level item) n'.cache
              = some sys.nodes.length := by
            rw [hn']
            simp only
            rw [lookup_append_none _ _ _ hc]
            simp [List.lookup]
          rw [hcache]

/-- Claim C9 (behaviour exhibiting the code bug): for a non-string item,
`_to_path_component` returns `str(hash(item))` — the runtime hash of the
current process run — so two runs that assign different runtime hashes to
the same object produce different path segments; the token is not stable
across process runs. -/
theorem c9_runtime_hash_token :
    toPathComponentBase run1 (.obj 0) = toString (run1.hashFn 0) ∧
    toPathComponentBase run1 (.obj 0) = "11" ∧
    toPathComponentBase run2 (.obj 0) = "22" ∧
    ¬ toPathComponentBase run1 (.obj 0) = toPathComponentBase run2 (.obj 0) :=
  ⟨rfl, rfl, rfl, by decide⟩

/-- Claim C10: the division operator `__truediv__` returns exactly what
indexing returns, on every node (including the overridden extension-level
`__getitem__`) and for every item. -/
theorem c10_truediv_eq_getitem (run : PyRun) (sys : Sys) (nid : Nat)
    (item : Item) :
    truediv run sys nid item = getitem run sys nid item := rfl

end Gufe
